import Mathlib

/-!
Verification development for `convert_ffxi_audio.py`.

The script is embedded shallowly:

* The filesystem is a flat list of path strings (`FS`); only
  existence/creation/deletion of paths matters to the script's logic.
* `withSuffix` models Python `Path.with_suffix` on path strings
  (replace the final extension of the last component, where a leading
  dot or a trailing dot of the name does not count as an extension).
* External processes (vgmstream-cli, ffmpeg) are modelled by a `World`
  oracle giving, for each stage, whether the executable can be launched
  (`FileNotFoundError` otherwise), the exit status, whether the stage's
  target file gets created, and whether an unexpected exception is
  raised during the stage.
* `convert_file`, `runLoop` (the per-file loop of `main`) and `mainRun`
  mirror the control flow of the Python source; every subprocess launch
  attempt is recorded in a `Call` trace.
-/

namespace FFXI

/-- A filesystem state: the list of paths that currently exist. -/
abbrev FS := List String

/-- Create a path (no-op when it already exists). -/
def fsInsert (fs : FS) (p : String) : FS :=
  if p ∈ fs then fs else p :: fs

/-- Delete a path (`Path.unlink`). -/
def fsErase (fs : FS) (p : String) : FS :=
  fs.filter (fun q => q ≠ p)

/-- The characters of a path up to (and excluding) its extension, the
extension being determined by Python's `Path.suffix` rule on the final
component: the part from the last dot, provided that dot is neither the
first nor the last character of the name. -/
def stemChars (p : String) : List Char :=
  let l := p.data
  let name := (l.reverse.takeWhile (fun c => c ≠ '/')).reverse
  let dir := l.take (l.length - name.length)
  let extLen := (name.reverse.takeWhile (fun c => c ≠ '.')).length
  let i := name.length - extLen - 1
  if extLen < name.length ∧ 0 < extLen ∧ 0 < i then dir ++ name.take i else dir ++ name

/-- Python `Path.with_suffix`: replace (or append, when there is none)
the extension of the path by `suf`. -/
def withSuffix (p suf : String) : String :=
  ⟨stemChars p ++ suf.data⟩

/-- The intermediate `.wav` path derived from an input path. -/
def wavPath (p : String) : String := withSuffix p ".wav"

/-- The output `.ogg` path derived from an input path. -/
def oggPath (p : String) : String := withSuffix p ".ogg"

/-- Does `p` end with the string `suf`?  (Compares the last
`suf.length` characters of `p` with `suf`.) -/
def endsWithS (p suf : String) : Bool :=
  decide (p.data.drop (p.data.length - suf.data.length) = suf.data)

/-- Does the path match one of the four `rglob` patterns
`*.bgw`, `*.spw`, `*.BGW`, `*.SPW` (exact case, as `rglob` matches)? -/
def isAudioName (p : String) : Bool :=
  endsWithS p ".bgw" || endsWithS p ".spw" || endsWithS p ".BGW" || endsWithS p ".SPW"

/-- Lowercase every character of a path. -/
def toLowerS (p : String) : String :=
  ⟨p.data.map Char.toLower⟩

/-- Modelled from the spec: the spec's discovery predicate, "extension,
compared case-insensitively, is one of the two recognized values
(.bgw, .spw)".  Used only to compare the spec's words with the code's
`rglob` patterns. -/
def isAudioNameCI (p : String) : Bool :=
  endsWithS (toLowerS p) ".bgw" || endsWithS (toLowerS p) ".spw"

/-- Lexicographic comparison of path strings, character by character
(the order `sorted` uses on POSIX paths). -/
def lexLeChars : List Char → List Char → Bool
  | [], _ => true
  | _ :: _, [] => false
  | a :: as, b :: bs => if a = b then lexLeChars as bs else decide (a < b)

/-- Lexicographic comparison of strings. -/
def lexLe (a b : String) : Bool := lexLeChars a.data b.data

/-- Insert a path into an already sorted list, keeping it sorted. -/
def insertSorted (a : String) : List String → List String
  | [] => [a]
  | b :: l => if lexLe a b then a :: b :: l else b :: insertSorted a l

/-- Sorting of the discovered paths (Python `sorted`). -/
def sortStr : List String → List String
  | [] => []
  | a :: l => insertSorted a (sortStr l)

/-- `find_audio_files`: for each of the four patterns, collect the
matching paths of the tree, then sort the concatenation. -/
def find_audio_files (fs : FS) : List String :=
  sortStr (fs.filter (fun p => endsWithS p ".bgw")
    ++ fs.filter (fun p => endsWithS p ".spw")
    ++ fs.filter (fun p => endsWithS p ".BGW")
    ++ fs.filter (fun p => endsWithS p ".SPW"))

/-- One subprocess launch attempt. -/
inductive Call where
  | decode (input : String)
  | encode (input : String)
  | checkVgm
  | checkFfmpeg
deriving DecidableEq

/-- Oracle describing how the two external stages behave for one input
file: whether each executable can be launched at all
(`FileNotFoundError` otherwise), whether the stage's target file is
created, the exit status, and whether an unexpected exception is raised
while the stage runs. -/
structure World where
  decFound : Bool
  decCreates : Bool
  decRet : Int
  decRaises : Bool
  encFound : Bool
  encCreates : Bool
  encRet : Int
  encRaises : Bool
deriving DecidableEq

/-- The printed per-file outcome of `convert_file`. -/
inductive Outcome where
  | ok
  | skipped
  | decodeFail
  | encodeFail
  | cmdNotFound
  | otherError
deriving DecidableEq

/-- Result of `convert_file`: the returned boolean, the printed
outcome, the filesystem afterwards, and the launch attempts made. -/
structure ConvResult where
  ret : Bool
  outcome : Outcome
  fs : FS
  calls : List Call
deriving DecidableEq

/-- Filesystem after the decoder stage ran: the decoder may or may not
have created the `.wav` file. -/
def afterDec (w : World) (p : String) (fs : FS) : FS :=
  if w.decCreates then fsInsert fs (wavPath p) else fs

/-- Filesystem after the encoder stage ran: ffmpeg may or may not have
created the `.ogg` file. -/
def afterEnc (w : World) (p : String) (fs1 : FS) : FS :=
  if w.encCreates then fsInsert fs1 (oggPath p) else fs1

/-- `if path.exists(): path.unlink()`. -/
def rmIfExists (fs : FS) (p : String) : FS :=
  if p ∈ fs then fsErase fs p else fs

/-- `convert_file` of the script: skip when the `.ogg` already exists;
otherwise decode to `.wav` (success requires exit 0 and the `.wav`
existing), encode to `.ogg` (success requires exit 0 and the `.ogg`
existing, removing the `.wav` on failure), then delete the `.wav`.
A `FileNotFoundError` from a launch is reported as the command-not-found
outcome; any other exception removes a leftover `.wav` and fails. -/
def convert_file (w : World) (p : String) (fs : FS) : ConvResult :=
  if oggPath p ∈ fs then
    { ret := true, outcome := .skipped, fs := fs, calls := [] }
  else if w.decFound = false then
    { ret := false, outcome := .cmdNotFound, fs := fs, calls := [.decode p] }
  else if w.decRaises then
    { ret := false, outcome := .otherError,
      fs := rmIfExists (afterDec w p fs) (wavPath p), calls := [.decode p] }
  else if w.decRet ≠ 0 ∨ wavPath p ∉ afterDec w p fs then
    { ret := false, outcome := .decodeFail, fs := afterDec w p fs, calls := [.decode p] }
  else if w.encFound = false then
    { ret := false, outcome := .cmdNotFound, fs := afterDec w p fs,
      calls := [.decode p, .encode p] }
  else if w.encRaises then
    { ret := false, outcome := .otherError,
      fs := rmIfExists (afterEnc w p (afterDec w p fs)) (wavPath p),
      calls := [.decode p, .encode p] }
  else if w.encRet ≠ 0 ∨ oggPath p ∉ afterEnc w p (afterDec w p fs) then
    { ret := false, outcome := .encodeFail,
      fs := rmIfExists (afterEnc w p (afterDec w p fs)) (wavPath p),
      calls := [.decode p, .encode p] }
  else
    { ret := true, outcome := .ok,
      fs := fsErase (afterEnc w p (afterDec w p fs)) (wavPath p),
      calls := [.decode p, .encode p] }

/-- The run tally printed at the end. -/
structure Tally where
  converted : Nat
  skipped : Nat
  failed : Nat
deriving DecidableEq

/-- Tally update after one `convert_file` call returning `b`. -/
def nextTally (b : Bool) (t : Tally) : Tally :=
  if b then ⟨t.converted + 1, t.skipped, t.failed⟩
  else ⟨t.converted, t.skipped, t.failed + 1⟩

/-- Prepend the launch attempts of the current file to a loop result. -/
def addCalls (cs : List Call) (res : Tally × FS × List Call) :
    Tally × FS × List Call :=
  (res.1, res.2.1, cs ++ res.2.2)

/-- The per-file loop of `main`: re-check the `.ogg` (counting a
skip without calling `convert_file`), otherwise convert and count the
boolean result. -/
def runLoop (w : String → World) (files : List String) (fs : FS) (t : Tally) :
    Tally × FS × List Call :=
  match files with
  | [] => (t, fs, [])
  | f :: rest =>
    if oggPath f ∈ fs then
      runLoop w rest fs ⟨t.converted, t.skipped + 1, t.failed⟩
    else
      addCalls (convert_file (w f) f fs).calls
        (runLoop w rest (convert_file (w f) f fs).fs
          (nextTally (convert_file (w f) f fs).ret t))

/-- The CLI-level facts `main` branches on. -/
structure Env where
  argc : Nat
  folderExists : Bool
  folderIsDir : Bool
  vgmFound : Bool
  ffmpegFound : Bool
deriving DecidableEq

/-- Package a loop result behind the two dependency-check launches. -/
def withChecks (res : Tally × FS × List Call) : Nat × Tally × FS × List Call :=
  (0, res.1, res.2.1, .checkVgm :: .checkFfmpeg :: res.2.2)

/-- `main` of the script: argument check, folder checks, the two
dependency-check launches, discovery, then the loop.  Returns the exit
code, the final tally, the final filesystem, and all launch attempts. -/
def mainRun (e : Env) (w : String → World) (fs : FS) :
    Nat × Tally × FS × List Call :=
  if e.argc < 2 then (1, ⟨0, 0, 0⟩, fs, [])
  else if e.folderExists = false then (1, ⟨0, 0, 0⟩, fs, [])
  else if e.folderIsDir = false then (1, ⟨0, 0, 0⟩, fs, [])
  else if e.vgmFound = false then (1, ⟨0, 0, 0⟩, fs, [.checkVgm])
  else if e.ffmpegFound = false then (1, ⟨0, 0, 0⟩, fs, [.checkVgm, .checkFfmpeg])
  else if find_audio_files fs = [] then (0, ⟨0, 0, 0⟩, fs, [.checkVgm, .checkFfmpeg])
  else withChecks (runLoop w (find_audio_files fs) fs ⟨0, 0, 0⟩)

/-! ### String and suffix lemmas -/

theorem withSuffix_data (p suf : String) :
    (withSuffix p suf).data = stemChars p ++ suf.data := rfl

theorem endsWithS_withSuffix (p suf suf' : String)
    (hlen : suf'.data.length = suf.data.length) :
    endsWithS (withSuffix p suf) suf' = decide (suf.data = suf'.data) := by
  unfold endsWithS
  rw [withSuffix_data, List.length_append, hlen, Nat.add_sub_cancel, List.drop_left]

theorem wavPath_ne_oggPath (p q : String) : wavPath p ≠ oggPath q := by
  intro h
  have hd : stemChars p ++ ".wav".data = stemChars q ++ ".ogg".data :=
    congrArg String.data h
  have h4 : (".wav".data).length = (".ogg".data).length := by decide
  exact absurd (List.append_inj' hd h4).2 (by decide)

theorem endsWithS_wavPath (f suf : String) (hlen : suf.data.length = 4)
    (hne : ".wav".data ≠ suf.data) : endsWithS (wavPath f) suf = false := by
  unfold wavPath
  rw [endsWithS_withSuffix f ".wav" suf (by rw [hlen]; decide)]
  exact decide_eq_false hne

theorem endsWithS_oggPath (f suf : String) (hlen : suf.data.length = 4)
    (hne : ".ogg".data ≠ suf.data) : endsWithS (oggPath f) suf = false := by
  unfold oggPath
  rw [endsWithS_withSuffix f ".ogg" suf (by rw [hlen]; decide)]
  exact decide_eq_false hne

theorem isAudioName_wavPath (p : String) : isAudioName (wavPath p) = false := by
  unfold isAudioName
  rw [endsWithS_wavPath p ".bgw" (by decide) (by decide),
    endsWithS_wavPath p ".spw" (by decide) (by decide),
    endsWithS_wavPath p ".BGW" (by decide) (by decide),
    endsWithS_wavPath p ".SPW" (by decide) (by decide)]
  rfl

theorem isAudioName_oggPath (p : String) : isAudioName (oggPath p) = false := by
  unfold isAudioName
  rw [endsWithS_oggPath p ".bgw" (by decide) (by decide),
    endsWithS_oggPath p ".spw" (by decide) (by decide),
    endsWithS_oggPath p ".BGW" (by decide) (by decide),
    endsWithS_oggPath p ".SPW" (by decide) (by decide)]
  rfl

theorem isAudioName_ne_wavPath (p : String) (h : isAudioName p = true) :
    p ≠ wavPath p := by
  intro he
  rw [he, isAudioName_wavPath] at h
  exact absurd h (by decide)

theorem isAudioName_ne_oggPath (p : String) (h : isAudioName p = true) :
    p ≠ oggPath p := by
  intro he
  rw [he, isAudioName_oggPath] at h
  exact absurd h (by decide)

/-! ### Filesystem membership lemmas -/

theorem mem_fsInsert (q p : String) (fs : FS) :
    q ∈ fsInsert fs p ↔ q = p ∨ q ∈ fs := by
  unfold fsInsert
  split
  · rename_i hp
    constructor
    · exact Or.inr
    · rintro (rfl | h)
      · exact hp
      · exact h
  · simp [List.mem_cons]

theorem mem_fsErase (q p : String) (fs : FS) :
    q ∈ fsErase fs p ↔ q ∈ fs ∧ q ≠ p := by
  unfold fsErase
  simp [List.mem_filter]

theorem mem_rmIfExists (q p : String) (fs : FS) :
    q ∈ rmIfExists fs p ↔ q ∈ fs ∧ (p ∈ fs → q ≠ p) := by
  unfold rmIfExists
  split <;> rename_i h
  · rw [mem_fsErase]
    simp [h]
  · simp [h]

theorem not_mem_rmIfExists_self (p : String) (fs : FS) :
    p ∉ rmIfExists fs p := by
  rw [mem_rmIfExists]
  intro h
  exact h.2 h.1 rfl

theorem mem_afterDec (w : World) (p q : String) (fs : FS) (hq : q ≠ wavPath p) :
    q ∈ afterDec w p fs ↔ q ∈ fs := by
  unfold afterDec
  split
  · rw [mem_fsInsert]
    simp [hq]
  · exact Iff.rfl

theorem mem_afterDec_mono (w : World) (p q : String) (fs : FS) (h : q ∈ fs) :
    q ∈ afterDec w p fs := by
  unfold afterDec
  split
  · exact (mem_fsInsert q _ fs).2 (Or.inr h)
  · exact h

theorem mem_afterEnc (w : World) (p q : String) (fs : FS) (hq : q ≠ oggPath p) :
    q ∈ afterEnc w p fs ↔ q ∈ fs := by
  unfold afterEnc
  split
  · rw [mem_fsInsert]
    simp [hq]
  · exact Iff.rfl

theorem mem_afterEnc_mono (w : World) (p q : String) (fs : FS) (h : q ∈ fs) :
    q ∈ afterEnc w p fs := by
  unfold afterEnc
  split
  · exact (mem_fsInsert q _ fs).2 (Or.inr h)
  · exact h

/-! ### Branch equations for `convert_file` -/

theorem convert_file_skip (w : World) (p : String) (fs : FS)
    (hogg : oggPath p ∈ fs) :
    convert_file w p fs = ⟨true, .skipped, fs, []⟩ := by
  unfold convert_file
  rw [if_pos hogg]

theorem convert_file_decNotFound (w : World) (p : String) (fs : FS)
    (hogg : oggPath p ∉ fs) (hdf : w.decFound = false) :
    convert_file w p fs = ⟨false, .cmdNotFound, fs, [.decode p]⟩ := by
  unfold convert_file
  rw [if_neg hogg, if_pos hdf]

theorem convert_file_decRaises (w : World) (p : String) (fs : FS)
    (hogg : oggPath p ∉ fs) (hdf : w.decFound = true) (hdr : w.decRaises = true) :
    convert_file w p fs
      = ⟨false, .otherError, rmIfExists (afterDec w p fs) (wavPath p), [.decode p]⟩ := by
  unfold convert_file
  rw [if_neg hogg, if_neg (by simp [hdf]), if_pos hdr]

theorem convert_file_decodeFail (w : World) (p : String) (fs : FS)
    (hogg : oggPath p ∉ fs) (hdf : w.decFound = true) (hdr : w.decRaises = false)
    (hfail : w.decRet ≠ 0 ∨ wavPath p ∉ afterDec w p fs) :
    convert_file w p fs
      = ⟨false, .decodeFail, afterDec w p fs, [.decode p]⟩ := by
  unfold convert_file
  rw [if_neg hogg, if_neg (by simp [hdf]), if_neg (by simp [hdr]), if_pos hfail]

theorem convert_file_encNotFound (w : World) (p : String) (fs : FS)
    (hogg : oggPath p ∉ fs) (hdf : w.decFound = true) (hdr : w.decRaises = false)
    (hdec : w.decRet = 0 ∧ wavPath p ∈ afterDec w p fs) (hef : w.encFound = false) :
    convert_file w p fs
      = ⟨false, .cmdNotFound, afterDec w p fs, [.decode p, .encode p]⟩ := by
  unfold convert_file
  rw [if_neg hogg, if_neg (by simp [hdf]), if_neg (by simp [hdr]),
    if_neg (by push_neg; exact hdec), if_pos hef]

theorem convert_file_encRaises (w : World) (p : String) (fs : FS)
    (hogg : oggPath p ∉ fs) (hdf : w.decFound = true) (hdr : w.decRaises = false)
    (hdec : w.decRet = 0 ∧ wavPath p ∈ afterDec w p fs) (hef : w.encFound = true)
    (her : w.encRaises = true) :
    convert_file w p fs
      = ⟨false, .otherError,
         rmIfExists (afterEnc w p (afterDec w p fs)) (wavPath p),
         [.decode p, .encode p]⟩ := by
  unfold convert_file
  rw [if_neg hogg, if_neg (by simp [hdf]), if_neg (by simp [hdr]),
    if_neg (by push_neg; exact hdec), if_neg (by simp [hef]), if_pos her]

theorem convert_file_encodeFail (w : World) (p : String) (fs : FS)
    (hogg : oggPath p ∉ fs) (hdf : w.decFound = true) (hdr : w.decRaises = false)
    (hdec : w.decRet = 0 ∧ wavPath p ∈ afterDec w p fs) (hef : w.encFound = true)
    (her : w.encRaises = false)
    (hfail : w.encRet ≠ 0 ∨ oggPath p ∉ afterEnc w p (afterDec w p fs)) :
    convert_file w p fs
      = ⟨false, .encodeFail,
         rmIfExists (afterEnc w p (afterDec w p fs)) (wavPath p),
         [.decode p, .encode p]⟩ := by
  unfold convert_file
  rw [if_neg hogg, if_neg (by simp [hdf]), if_neg (by simp [hdr]),
    if_neg (by push_neg; exact hdec), if_neg (by simp [hef]), if_neg (by simp [her]),
    if_pos hfail]

theorem convert_file_ok (w : World) (p : String) (fs : FS)
    (hogg : oggPath p ∉ fs) (hdf : w.decFound = true) (hdr : w.decRaises = false)
    (hdec : w.decRet = 0 ∧ wavPath p ∈ afterDec w p fs) (hef : w.encFound = true)
    (her : w.encRaises = false)
    (henc : w.encRet = 0 ∧ oggPath p ∈ afterEnc w p (afterDec w p fs)) :
    convert_file w p fs
      = ⟨true, .ok,
         fsErase (afterEnc w p (afterDec w p fs)) (wavPath p),
         [.decode p, .encode p]⟩ := by
  unfold convert_file
  rw [if_neg hogg, if_neg (by simp [hdf]), if_neg (by simp [hdr]),
    if_neg (by push_neg; exact hdec), if_neg (by simp [hef]), if_neg (by simp [her]),
    if_neg (by push_neg; exact henc)]

/-- Exhaustive case analysis over the outcomes of `convert_file`,
carrying the branch conditions that matter downstream. -/
theorem convert_file_cases (w : World) (p : String) (fs : FS) :
    (oggPath p ∈ fs ∧ convert_file w p fs = ⟨true, .skipped, fs, []⟩)
  ∨ convert_file w p fs = ⟨false, .cmdNotFound, fs, [.decode p]⟩
  ∨ convert_file w p fs
      = ⟨false, .otherError, rmIfExists (afterDec w p fs) (wavPath p), [.decode p]⟩
  ∨ convert_file w p fs = ⟨false, .decodeFail, afterDec w p fs, [.decode p]⟩
  ∨ convert_file w p fs
      = ⟨false, .cmdNotFound, afterDec w p fs, [.decode p, .encode p]⟩
  ∨ convert_file w p fs
      = ⟨false, .otherError,
         rmIfExists (afterEnc w p (afterDec w p fs)) (wavPath p),
         [.decode p, .encode p]⟩
  ∨ convert_file w p fs
      = ⟨false, .encodeFail,
         rmIfExists (afterEnc w p (afterDec w p fs)) (wavPath p),
         [.decode p, .encode p]⟩
  ∨ (oggPath p ∈ afterEnc w p (afterDec w p fs)
      ∧ convert_file w p fs
          = ⟨true, .ok,
             fsErase (afterEnc w p (afterDec w p fs)) (wavPath p),
             [.decode p, .encode p]⟩) := by
  by_cases hogg : oggPath p ∈ fs
  · exact Or.inl ⟨hogg, convert_file_skip w p fs hogg⟩
  · by_cases hdf : w.decFound = false
    · exact Or.inr (Or.inl (convert_file_decNotFound w p fs hogg hdf))
    · rw [Bool.not_eq_false] at hdf
      by_cases hdr : w.decRaises = true
      · exact Or.inr (Or.inr (Or.inl (convert_file_decRaises w p fs hogg hdf hdr)))
      · rw [Bool.not_eq_true] at hdr
        by_cases hdec : w.decRet ≠ 0 ∨ wavPath p ∉ afterDec w p fs
        · exact Or.inr (Or.inr (Or.inr (Or.inl
            (convert_file_decodeFail w p fs hogg hdf hdr hdec))))
        · push_neg at hdec
          by_cases hef : w.encFound = false
          · exact Or.inr (Or.inr (Or.inr (Or.inr (Or.inl
              (convert_file_encNotFound w p fs hogg hdf hdr hdec hef)))))
          · rw [Bool.not_eq_false] at hef
            by_cases her : w.encRaises = true
            · exact Or.inr (Or.inr (Or.inr (Or.inr (Or.inr (Or.inl
                (convert_file_encRaises w p fs hogg hdf hdr hdec hef her))))))
            · rw [Bool.not_eq_true] at her
              by_cases henc : w.encRet ≠ 0 ∨ oggPath p ∉ afterEnc w p (afterDec w p fs)
              · exact Or.inr (Or.inr (Or.inr (Or.inr (Or.inr (Or.inr (Or.inl
                  (convert_file_encodeFail w p fs hogg hdf hdr hdec hef her henc)))))))
              · push_neg at henc
                exact Or.inr (Or.inr (Or.inr (Or.inr (Or.inr (Or.inr (Or.inr
                  ⟨henc.2, convert_file_ok w p fs hogg hdf hdr hdec hef her henc⟩))))))

/-! ### Sorting lemmas -/

theorem lexLeChars_total : ∀ l m : List Char,
    lexLeChars l m = true ∨ lexLeChars m l = true
  | [], _ => Or.inl rfl
  | _ :: _, [] => Or.inr rfl
  | a :: as, b :: bs => by
    by_cases hab : a = b
    · subst hab
      unfold lexLeChars
      rw [if_pos rfl, if_pos rfl]
      exact lexLeChars_total as bs
    · unfold lexLeChars
      rw [if_neg hab, if_neg (Ne.symm hab)]
      rcases lt_trichotomy a b with h | h | h
      · exact Or.inl (decide_eq_true h)
      · exact absurd h hab
      · exact Or.inr (decide_eq_true h)

theorem lexLeChars_trans : ∀ l m k : List Char,
    lexLeChars l m = true → lexLeChars m k = true → lexLeChars l k = true
  | [], _, _ => fun _ _ => rfl
  | _ :: _, [], _ => by
    intro h
    exact absurd h (by simp [lexLeChars])
  | _ :: _, _ :: _, [] => by
    intro _ h
    exact absurd h (by simp [lexLeChars])
  | a :: as, b :: bs, c :: cs => by
    intro h1 h2
    unfold lexLeChars at h1 h2 ⊢
    by_cases hab : a = b <;> by_cases hbc : b = c
    · subst hab; subst hbc
      rw [if_pos rfl] at h1 h2 ⊢
      exact lexLeChars_trans as bs cs h1 h2
    · subst hab
      rw [if_pos rfl] at h1
      rw [if_neg hbc] at h2 ⊢
      exact h2
    · subst hbc
      rw [if_pos rfl] at h2
      rw [if_neg hab] at h1 ⊢
      exact h1
    · rw [if_neg hab] at h1
      rw [if_neg hbc] at h2
      have hac : a < c := lt_trans (of_decide_eq_true h1) (of_decide_eq_true h2)
      have hnac : ¬ a = c := by
        intro he
        rw [he] at hac
        exact absurd hac (lt_irrefl c)
      rw [if_neg hnac, decide_eq_true hac]

theorem lexLe_total (a b : String) : lexLe a b = true ∨ lexLe b a = true :=
  lexLeChars_total a.data b.data

theorem lexLe_trans (a b c : String) (h1 : lexLe a b = true)
    (h2 : lexLe b c = true) : lexLe a c = true :=
  lexLeChars_trans a.data b.data c.data h1 h2

theorem mem_insertSorted (x a : String) : ∀ l : List String,
    x ∈ insertSorted a l ↔ x = a ∨ x ∈ l
  | [] => by simp [insertSorted]
  | b :: l => by
    unfold insertSorted
    split
    · simp [List.mem_cons]
    · rw [List.mem_cons, mem_insertSorted x a l, List.mem_cons]
      tauto

theorem mem_sortStr (x : String) : ∀ l : List String, x ∈ sortStr l ↔ x ∈ l
  | [] => Iff.rfl
  | a :: l => by
    unfold sortStr
    rw [mem_insertSorted, mem_sortStr x l, List.mem_cons]

theorem pairwise_insertSorted (a : String) : ∀ l : List String,
    l.Pairwise (fun x y => lexLe x y = true) →
    (insertSorted a l).Pairwise (fun x y => lexLe x y = true)
  | [], _ => by simp [insertSorted]
  | b :: l, h => by
    unfold insertSorted
    rcases List.pairwise_cons.1 h with ⟨hb, hl⟩
    split
    · rename_i hab
      refine List.pairwise_cons.2 ⟨?_, h⟩
      intro x hx
      rcases List.mem_cons.1 hx with rfl | hx
      · exact hab
      · exact lexLe_trans a b x hab (hb x hx)
    · rename_i hab
      have hba : lexLe b a = true := by
        rcases lexLe_total a b with h' | h'
        · exact absurd h' hab
        · exact h'
      refine List.pairwise_cons.2 ⟨?_, pairwise_insertSorted a l hl⟩
      intro x hx
      rcases (mem_insertSorted x a l).1 hx with rfl | hx
      · exact hba
      · exact hb x hx

theorem pairwise_sortStr : ∀ l : List String,
    (sortStr l).Pairwise (fun x y => lexLe x y = true)
  | [] => List.Pairwise.nil
  | a :: l => pairwise_insertSorted a (sortStr l) (pairwise_sortStr l)

theorem pairwise_find_audio_files (fs : FS) :
    (find_audio_files fs).Pairwise (fun x y => lexLe x y = true) :=
  pairwise_sortStr _

theorem mem_find_audio_files (p : String) (fs : FS) :
    p ∈ find_audio_files fs ↔ p ∈ fs ∧ isAudioName p = true := by
  unfold find_audio_files isAudioName
  rw [mem_sortStr]
  simp only [List.mem_append, List.mem_filter, Bool.or_eq_true]
  tauto

/-! ### Filter preservation: the converter never touches paths other
than the derived `.wav` and `.ogg` ones -/

theorem filter_fsInsert (pred : String → Bool) (q : String) (fs : FS)
    (h : pred q = false) : (fsInsert fs q).filter pred = fs.filter pred := by
  unfold fsInsert
  split
  · rfl
  · simp [List.filter_cons, h]

theorem filter_fsErase (pred : String → Bool) (q : String) (fs : FS)
    (h : pred q = false) : (fsErase fs q).filter pred = fs.filter pred := by
  unfold fsErase
  rw [List.filter_filter]
  apply List.filter_congr
  intro a _
  by_cases hpa : pred a = true
  · have haq : a ≠ q := by
      intro he
      rw [he, h] at hpa
      exact absurd hpa (by decide)
    simp [hpa, haq]
  · rw [Bool.not_eq_true] at hpa
    simp [hpa]

theorem filter_rmIfExists (pred : String → Bool) (q : String) (fs : FS)
    (h : pred q = false) : (rmIfExists fs q).filter pred = fs.filter pred := by
  unfold rmIfExists
  split
  · exact filter_fsErase pred q fs h
  · rfl

theorem filter_afterDec (pred : String → Bool) (w : World) (p : String) (fs : FS)
    (hw : pred (wavPath p) = false) :
    (afterDec w p fs).filter pred = fs.filter pred := by
  unfold afterDec
  split
  · exact filter_fsInsert pred _ fs hw
  · rfl

theorem filter_afterEnc (pred : String → Bool) (w : World) (p : String) (fs : FS)
    (ho : pred (oggPath p) = false) :
    (afterEnc w p fs).filter pred = fs.filter pred := by
  unfold afterEnc
  split
  · exact filter_fsInsert pred _ fs ho
  · rfl

theorem filter_convert_file (pred : String → Bool) (w : World) (p : String)
    (fs : FS) (hw : pred (wavPath p) = false) (ho : pred (oggPath p) = false) :
    ((convert_file w p fs).fs).filter pred = fs.filter pred := by
  rcases convert_file_cases w p fs with ⟨_, h⟩ | h | h | h | h | h | h | ⟨_, h⟩ <;>
    rw [h] <;> dsimp only
  · rw [filter_rmIfExists pred _ _ hw, filter_afterDec pred w p fs hw]
  · exact filter_afterDec pred w p fs hw
  · exact filter_afterDec pred w p fs hw
  · rw [filter_rmIfExists pred _ _ hw, filter_afterEnc pred w p _ ho,
      filter_afterDec pred w p fs hw]
  · rw [filter_rmIfExists pred _ _ hw, filter_afterEnc pred w p _ ho,
      filter_afterDec pred w p fs hw]
  · rw [filter_fsErase pred _ _ hw, filter_afterEnc pred w p _ ho,
      filter_afterDec pred w p fs hw]

/-! ### Loop equations and invariants -/

theorem runLoop_nil (w : String → World) (fs : FS) (t : Tally) :
    runLoop w [] fs t = (t, fs, []) := rfl

theorem runLoop_cons (w : String → World) (f : String) (rest : List String)
    (fs : FS) (t : Tally) :
    runLoop w (f :: rest) fs t =
      if oggPath f ∈ fs then
        runLoop w rest fs ⟨t.converted, t.skipped + 1, t.failed⟩
      else
        addCalls (convert_file (w f) f fs).calls
          (runLoop w rest (convert_file (w f) f fs).fs
            (nextTally (convert_file (w f) f fs).ret t)) := rfl

theorem filter_runLoop (pred : String → Bool) (w : String → World)
    (hw : ∀ f, pred (wavPath f) = false) (ho : ∀ f, pred (oggPath f) = false) :
    ∀ (files : List String) (fs : FS) (t : Tally),
      ((runLoop w files fs t).2.1).filter pred = fs.filter pred
  | [], _, _ => rfl
  | f :: rest, fs, t => by
    rw [runLoop_cons]
    split
    · exact filter_runLoop pred w hw ho rest fs _
    · unfold addCalls
      dsimp only
      rw [filter_runLoop pred w hw ho rest _ _,
        filter_convert_file pred (w f) f fs (hw f) (ho f)]

theorem runLoop_failed_le (w : String → World) :
    ∀ (files : List String) (fs : FS) (t : Tally),
      t.failed ≤ (runLoop w files fs t).1.failed
  | [], _, _ => le_refl _
  | f :: rest, fs, t => by
    rw [runLoop_cons]
    split
    · exact runLoop_failed_le w rest fs ⟨t.converted, t.skipped + 1, t.failed⟩
    · unfold addCalls
      dsimp only
      refine le_trans ?_ (runLoop_failed_le w rest _ (nextTally _ t))
      unfold nextTally
      split <;> simp

theorem runLoop_ogg_mono (w : String → World) (q : String) :
    ∀ (files : List String) (fs : FS) (t : Tally),
      oggPath q ∈ fs → oggPath q ∈ (runLoop w files fs t).2.1
  | [], _, _, h => h
  | f :: rest, fs, t, h => by
    rw [runLoop_cons]
    split
    · exact runLoop_ogg_mono w q rest fs _ h
    · unfold addCalls
      dsimp only
      refine runLoop_ogg_mono w q rest _ _ ?_
      rcases convert_file_cases (w f) f fs with
        ⟨_, hc⟩ | hc | hc | hc | hc | hc | hc | ⟨_, hc⟩ <;> rw [hc] <;> dsimp only
      · exact h
      · exact h
      · rw [mem_rmIfExists]
        exact ⟨mem_afterDec_mono _ f _ fs h, fun _ => Ne.symm (wavPath_ne_oggPath f q)⟩
      · exact mem_afterDec_mono _ f _ fs h
      · exact mem_afterDec_mono _ f _ fs h
      · rw [mem_rmIfExists]
        exact ⟨mem_afterEnc_mono _ f _ _ (mem_afterDec_mono _ f _ fs h),
          fun _ => Ne.symm (wavPath_ne_oggPath f q)⟩
      · rw [mem_rmIfExists]
        exact ⟨mem_afterEnc_mono _ f _ _ (mem_afterDec_mono _ f _ fs h),
          fun _ => Ne.symm (wavPath_ne_oggPath f q)⟩
      · rw [mem_fsErase]
        exact ⟨mem_afterEnc_mono _ f _ _ (mem_afterDec_mono _ f _ fs h),
          Ne.symm (wavPath_ne_oggPath f q)⟩

theorem convert_file_ret_ogg (w : World) (p : String) (fs : FS)
    (h : (convert_file w p fs).ret = true) :
    oggPath p ∈ (convert_file w p fs).fs := by
  rcases convert_file_cases w p fs with
    ⟨hin, hc⟩ | hc | hc | hc | hc | hc | hc | ⟨hin, hc⟩
  · rw [hc]
    exact hin
  · rw [hc] at h; simp at h
  · rw [hc] at h; simp at h
  · rw [hc] at h; simp at h
  · rw [hc] at h; simp at h
  · rw [hc] at h; simp at h
  · rw [hc] at h; simp at h
  · rw [hc]
    dsimp only
    rw [mem_fsErase]
    exact ⟨hin, Ne.symm (wavPath_ne_oggPath p p)⟩

theorem runLoop_ogg_of_no_fail (w : String → World) :
    ∀ (files : List String) (fs : FS) (t : Tally),
      (runLoop w files fs t).1.failed = t.failed →
      ∀ f ∈ files, oggPath f ∈ (runLoop w files fs t).2.1
  | [], _, _, _, f, hf => absurd hf (List.not_mem_nil f)
  | f0 :: rest, fs, t, hfail, f, hf => by
    rw [runLoop_cons] at hfail ⊢
    rcases List.mem_cons.1 hf with rfl | hf
    · split at hfail <;> rename_i hskip
      · rw [if_pos hskip]
        exact runLoop_ogg_mono w f rest fs _ hskip
      · rw [if_neg hskip]
        unfold addCalls at hfail ⊢
        dsimp only at hfail ⊢
        by_cases hret : (convert_file (w f) f fs).ret = true
        · exact runLoop_ogg_mono w f rest _ _ (convert_file_ret_ogg (w f) f fs hret)
        · exfalso
          rw [Bool.not_eq_true] at hret
          have hle := runLoop_failed_le w rest (convert_file (w f) f fs).fs
            (nextTally (convert_file (w f) f fs).ret t)
          rw [hfail] at hle
          unfold nextTally at hle
          rw [hret] at hle
          simp at hle
    · split at hfail <;> rename_i hskip
      · rw [if_pos hskip]
        exact runLoop_ogg_of_no_fail w rest fs _ hfail f hf
      · rw [if_neg hskip]
        unfold addCalls at hfail ⊢
        dsimp only at hfail ⊢
        by_cases hret : (convert_file (w f0) f0 fs).ret = true
        · refine runLoop_ogg_of_no_fail w rest _ _ ?_ f hf
          unfold nextTally at hfail ⊢
          rw [hret] at hfail ⊢
          exact hfail
        · exfalso
          rw [Bool.not_eq_true] at hret
          have hle := runLoop_failed_le w rest (convert_file (w f0) f0 fs).fs
            (nextTally (convert_file (w f0) f0 fs).ret t)
          rw [hfail] at hle
          unfold nextTally at hle
          rw [hret] at hle
          simp at hle

theorem runLoop_all_skip (w : String → World) :
    ∀ (files : List String) (fs : FS) (t : Tally),
      (∀ f ∈ files, oggPath f ∈ fs) →
      runLoop w files fs t
        = (⟨t.converted, t.skipped + files.length, t.failed⟩, fs, []) := by
  intro files
  induction files with
  | nil =>
    intro fs t _
    rw [runLoop_nil]
    rfl
  | cons f rest ih =>
    intro fs t h
    rw [runLoop_cons, if_pos (h f (List.mem_cons_self f rest))]
    rw [ih fs ⟨t.converted, t.skipped + 1, t.failed⟩
      (fun g hg => h g (List.mem_cons_of_mem f hg))]
    have harith : t.skipped + 1 + rest.length = t.skipped + (f :: rest).length := by
      rw [List.length_cons]
      omega
    rw [harith]

theorem find_audio_files_runLoop (w : String → World) (files : List String)
    (fs : FS) (t : Tally) :
    find_audio_files (runLoop w files fs t).2.1 = find_audio_files fs := by
  unfold find_audio_files
  rw [filter_runLoop (fun p => endsWithS p ".bgw") w
      (fun f => endsWithS_wavPath f ".bgw" (by decide) (by decide))
      (fun f => endsWithS_oggPath f ".bgw" (by decide) (by decide)) files fs t,
    filter_runLoop (fun p => endsWithS p ".spw") w
      (fun f => endsWithS_wavPath f ".spw" (by decide) (by decide))
      (fun f => endsWithS_oggPath f ".spw" (by decide) (by decide)) files fs t,
    filter_runLoop (fun p => endsWithS p ".BGW") w
      (fun f => endsWithS_wavPath f ".BGW" (by decide) (by decide))
      (fun f => endsWithS_oggPath f ".BGW" (by decide) (by decide)) files fs t,
    filter_runLoop (fun p => endsWithS p ".SPW") w
      (fun f => endsWithS_wavPath f ".SPW" (by decide) (by decide))
      (fun f => endsWithS_oggPath f ".SPW" (by decide) (by decide)) files fs t]

theorem mainRun_checksPassed (e : Env) (w : String → World) (fs : FS)
    (h2 : ¬ e.argc < 2) (hex : e.folderExists = true) (hdir : e.folderIsDir = true)
    (hv : e.vgmFound = true) (hff : e.ffmpegFound = true) :
    mainRun e w fs =
      if find_audio_files fs = [] then (0, ⟨0, 0, 0⟩, fs, [.checkVgm, .checkFfmpeg])
      else withChecks (runLoop w (find_audio_files fs) fs ⟨0, 0, 0⟩) := by
  unfold mainRun
  rw [if_neg h2, if_neg (by simp [hex]), if_neg (by simp [hdir]),
    if_neg (by simp [hv]), if_neg (by simp [hff])]

theorem runLoop_tally_sum (w : String → World) :
    ∀ (files : List String) (fs : FS) (t : Tally),
      (runLoop w files fs t).1.converted + (runLoop w files fs t).1.skipped
          + (runLoop w files fs t).1.failed
        = t.converted + t.skipped + t.failed + files.length
  | [], _, _ => by rw [runLoop_nil]; rfl
  | f :: rest, fs, t => by
    rw [runLoop_cons]
    split
    · rw [runLoop_tally_sum w rest fs ⟨t.converted, t.skipped + 1, t.failed⟩]
      dsimp only
      rw [List.length_cons]
      omega
    · unfold addCalls
      dsimp only
      rw [runLoop_tally_sum w rest _ (nextTally (convert_file (w f) f fs).ret t)]
      unfold nextTally
      rw [List.length_cons]
      split <;> dsimp only <;> omega

/-! ### Concrete scenarios used by counterexamples and witnesses -/

/-- Both executables launch, both stages succeed. -/
def wAllGood : World := ⟨true, true, 0, false, true, true, 0, false⟩

/-- The decoder works, but the encoder executable is missing. -/
def wEncMissing : World := ⟨true, true, 0, false, false, false, 0, false⟩

/-- The decoder launches and exits zero but produces no output file. -/
def wDecNoOutput : World := ⟨true, false, 0, false, true, true, 0, false⟩

/-- A command line with a folder argument, an existing directory and
both external tools present. -/
def envOK : Env := ⟨2, true, true, true, true⟩

/-! ### Claims -/

/-- C1, counterexample to the claim as stated: with a working decoder
and a missing encoder executable, `convert_file` reports the
command-not-found outcome but the partially-created `.wav`
intermediate is still on disk when it returns (the
`FileNotFoundError` handler performs no cleanup). -/
theorem C1_counterexample :
    (convert_file wEncMissing "a.bgw" ["a.bgw"]).outcome = Outcome.cmdNotFound
  ∧ wavPath "a.bgw" ∈ (convert_file wEncMissing "a.bgw" ["a.bgw"]).fs := by
  decide

/-- C1 (amended): when the decoder or encoder executable cannot be
launched, `convert_file` reports the distinct command-not-found
outcome and returns `false`, but does NOT remove a partially-created
intermediate `.wav` file: the filesystem is left exactly as it was at
the moment the launch failed, so a `.wav` produced by a successful
decode stage remains on disk when the encoder is missing. -/
theorem C1_theorem (w : World) (p : String) (fs : FS)
    (hogg : oggPath p ∉ fs) :
    (w.decFound = false →
      convert_file w p fs = ⟨false, .cmdNotFound, fs, [.decode p]⟩)
  ∧ (w.decFound = true → w.decRaises = false → w.decRet = 0 →
      wavPath p ∈ afterDec w p fs → w.encFound = false →
      convert_file w p fs
        = ⟨false, .cmdNotFound, afterDec w p fs, [.decode p, .encode p]⟩
      ∧ wavPath p ∈ (convert_file w p fs).fs) := by
  constructor
  · intro hdf
    exact convert_file_decNotFound w p fs hogg hdf
  · intro hdf hdr h0 hw hef
    have heq := convert_file_encNotFound w p fs hogg hdf hdr ⟨h0, hw⟩ hef
    refine ⟨heq, ?_⟩
    rw [heq]
    exact hw

theorem C1_witness :
    convert_file wEncMissing "a.bgw" ["a.bgw"]
      = ⟨false, .cmdNotFound, afterDec wEncMissing "a.bgw" ["a.bgw"],
         [.decode "a.bgw", .encode "a.bgw"]⟩
  ∧ wavPath "a.bgw" ∈ (convert_file wEncMissing "a.bgw" ["a.bgw"]).fs :=
  (C1_theorem wEncMissing "a.bgw" ["a.bgw"] (by decide)).2 (by decide) (by decide)
    (by decide) (by decide) (by decide)

/-- C2, counterexample to the claim as stated: the file `a.Bgw` has
extension `.bgw` under case-insensitive comparison, yet discovery
returns nothing for a tree containing only it, because `rglob` matches
only the four exact-case patterns. -/
theorem C2_counterexample :
    isAudioNameCI "a.Bgw" = true ∧ find_audio_files ["a.Bgw"] = [] := by
  decide

/-- C2 (amended): `find_audio_files` returns a lexicographically
sorted sequence containing exactly those paths of the tree whose
extension is exactly one of the four case variants `.bgw`, `.spw`,
`.BGW`, `.SPW` (mixed-case extensions are not matched); the returned
paths are the discovered entries themselves (absolute when the root
was given absolute).  A tree containing `a.bgw`, `b.SPW`, `c.txt`
yields exactly `[a.bgw, b.SPW]` and excludes `c.txt`. -/
theorem C2_theorem :
    (∀ fs : FS, (find_audio_files fs).Pairwise (fun a b => lexLe a b = true))
  ∧ (∀ (fs : FS) (p : String),
      p ∈ find_audio_files fs ↔ p ∈ fs ∧ isAudioName p = true)
  ∧ find_audio_files ["a.bgw", "b.SPW", "c.txt"] = ["a.bgw", "b.SPW"] :=
  ⟨fun fs => pairwise_find_audio_files fs,
   fun fs p => mem_find_audio_files p fs,
   by decide⟩

theorem C2_witness :
    "b.SPW" ∈ find_audio_files ["a.bgw", "b.SPW", "c.txt"]
      ↔ "b.SPW" ∈ ["a.bgw", "b.SPW", "c.txt"] ∧ isAudioName "b.SPW" = true :=
  C2_theorem.2.1 ["a.bgw", "b.SPW", "c.txt"] "b.SPW"

/-- C3: whenever `convert_file` returns with the OK outcome or the
encode-failure outcome, the intermediate `.wav` path is absent from
the resulting filesystem. -/
theorem C3_theorem (w : World) (p : String) (fs : FS)
    (h : (convert_file w p fs).outcome = .ok
      ∨ (convert_file w p fs).outcome = .encodeFail) :
    wavPath p ∉ (convert_file w p fs).fs := by
  rcases convert_file_cases w p fs with
    ⟨_, hc⟩ | hc | hc | hc | hc | hc | hc | ⟨_, hc⟩ <;>
    rw [hc] at h ⊢ <;> dsimp only at h ⊢
  · rcases h with h | h <;> exact absurd h (by decide)
  · rcases h with h | h <;> exact absurd h (by decide)
  · rcases h with h | h <;> exact absurd h (by decide)
  · rcases h with h | h <;> exact absurd h (by decide)
  · rcases h with h | h <;> exact absurd h (by decide)
  · rcases h with h | h <;> exact absurd h (by decide)
  · exact not_mem_rmIfExists_self _ _
  · rw [mem_fsErase]
    simp

theorem C3_witness :
    wavPath "a.bgw" ∉ (convert_file wAllGood "a.bgw" ["a.bgw"]).fs :=
  C3_theorem wAllGood "a.bgw" ["a.bgw"] (Or.inl (by decide))

/-- C4: when the `.ogg` output of a file already exists, the run
driver's loop counts it as skipped and contributes no launch attempt
for that file — the loop step is exactly the loop over the remaining
files with the skipped counter incremented — and `convert_file` would
make no launch attempt for it either. -/
theorem C4_theorem (w : String → World) (f : String) (rest : List String)
    (fs : FS) (t : Tally) (h : oggPath f ∈ fs) :
    runLoop w (f :: rest) fs t
      = runLoop w rest fs ⟨t.converted, t.skipped + 1, t.failed⟩
  ∧ (convert_file (w f) f fs).calls = [] := by
  constructor
  · rw [runLoop_cons, if_pos h]
  · rw [convert_file_skip (w f) f fs h]

theorem C4_witness :
    runLoop (fun _ => wAllGood) ["a.bgw"] ["a.ogg", "a.bgw"] ⟨0, 0, 0⟩
      = runLoop (fun _ => wAllGood) [] ["a.ogg", "a.bgw"] ⟨0, 1, 0⟩
  ∧ (convert_file wAllGood "a.bgw" ["a.ogg", "a.bgw"]).calls = [] :=
  C4_theorem (fun _ => wAllGood) "a.bgw" [] ["a.ogg", "a.bgw"] ⟨0, 0, 0⟩ (by decide)

/-- C5: once the decode stage runs (no skip, decoder launchable, no
unexpected exception), the pipeline proceeds to the encode stage — that
is, makes an encode launch attempt — exactly when the decoder exit
status is zero AND the `.wav` file exists afterwards; in particular a
decoder that exits zero without producing the `.wav` yields the
decode-failure outcome and a `false` return, not a success. -/
theorem C5_theorem (w : World) (p : String) (fs : FS)
    (hogg : oggPath p ∉ fs) (hdf : w.decFound = true) (hdr : w.decRaises = false) :
    (Call.encode p ∈ (convert_file w p fs).calls
      ↔ (w.decRet = 0 ∧ wavPath p ∈ afterDec w p fs))
  ∧ (w.decRet = 0 → wavPath p ∉ afterDec w p fs →
      (convert_file w p fs).outcome = .decodeFail
      ∧ (convert_file w p fs).ret = false) := by
  by_cases hfail : w.decRet ≠ 0 ∨ wavPath p ∉ afterDec w p fs
  · have heq := convert_file_decodeFail w p fs hogg hdf hdr hfail
    constructor
    · rw [heq]
      dsimp only
      constructor
      · intro hmem
        exact absurd hmem (by simp)
      · intro hdec
        exfalso
        rcases hfail with hf | hf
        · exact hf hdec.1
        · exact hf hdec.2
    · intro _ _
      rw [heq]
      exact ⟨rfl, rfl⟩
  · push_neg at hfail
    have hcalls : (convert_file w p fs).calls = [.decode p, .encode p] := by
      by_cases hef : w.encFound = false
      · rw [convert_file_encNotFound w p fs hogg hdf hdr hfail hef]
      · rw [Bool.not_eq_false] at hef
        by_cases her : w.encRaises = true
        · rw [convert_file_encRaises w p fs hogg hdf hdr hfail hef her]
        · rw [Bool.not_eq_true] at her
          by_cases henc : w.encRet ≠ 0 ∨ oggPath p ∉ afterEnc w p (afterDec w p fs)
          · rw [convert_file_encodeFail w p fs hogg hdf hdr hfail hef her henc]
          · push_neg at henc
            rw [convert_file_ok w p fs hogg hdf hdr hfail hef her henc]
    constructor
    · rw [hcalls]
      constructor
      · intro _
        exact hfail
      · intro _
        simp
    · intro _ hw
      exact absurd hfail.2 hw

theorem C5_witness :
    (convert_file wDecNoOutput "a.bgw" ["a.bgw"]).outcome = Outcome.decodeFail
  ∧ (convert_file wDecNoOutput "a.bgw" ["a.bgw"]).ret = false :=
  (C5_theorem wDecNoOutput "a.bgw" ["a.bgw"] (by decide) (by decide) (by decide)).2
    (by decide) (by decide)

/-- C6, counterexample to the claim as stated: after a first run that
converted everything (failed = 0), the second run over the same folder
still makes external launch attempts — `main` unconditionally launches
both executables for its dependency check before the loop — so its
launch-attempt trace is not empty. -/
theorem C6_counterexample :
    (mainRun envOK (fun _ => wAllGood) ["a.bgw"]).2.1.failed = 0
  ∧ (mainRun envOK (fun _ => wAllGood)
       (mainRun envOK (fun _ => wAllGood) ["a.bgw"]).2.2.1).2.2.2 ≠ [] := by
  decide

/-- C6 (amended): after a run in which every file was converted or
skipped (failed = 0), a second run over the resulting folder discovers
the same files, invokes no decode or encode process — its only launch
attempts are the two dependency checks — leaves the filesystem
unchanged, and produces a tally in which every discovered file is
skipped (converted = 0, failed = 0). -/
theorem C6_theorem (e : Env) (w w' : String → World) (fs : FS)
    (h2 : ¬ e.argc < 2) (hex : e.folderExists = true) (hdir : e.folderIsDir = true)
    (hv : e.vgmFound = true) (hff : e.ffmpegFound = true)
    (hfail : (mainRun e w fs).2.1.failed = 0) :
    find_audio_files (mainRun e w fs).2.2.1 = find_audio_files fs
  ∧ mainRun e w' (mainRun e w fs).2.2.1
      = (0, ⟨0, (find_audio_files fs).length, 0⟩, (mainRun e w fs).2.2.1,
         [.checkVgm, .checkFfmpeg]) := by
  have hm := mainRun_checksPassed e w fs h2 hex hdir hv hff
  by_cases hempty : find_audio_files fs = []
  · rw [hm, if_pos hempty] at hfail ⊢
    dsimp only
    refine ⟨rfl, ?_⟩
    rw [mainRun_checksPassed e w' fs h2 hex hdir hv hff, if_pos hempty, hempty]
    rfl
  · rw [hm, if_neg hempty] at hfail ⊢
    unfold withChecks at hfail ⊢
    dsimp only at hfail ⊢
    have hoggs := runLoop_ogg_of_no_fail w (find_audio_files fs) fs ⟨0, 0, 0⟩ hfail
    have hfiles1 := find_audio_files_runLoop w (find_audio_files fs) fs ⟨0, 0, 0⟩
    refine ⟨hfiles1, ?_⟩
    rw [mainRun_checksPassed e w' _ h2 hex hdir hv hff, hfiles1, if_neg hempty,
      runLoop_all_skip w' (find_audio_files fs) _ ⟨0, 0, 0⟩ hoggs]
    unfold withChecks
    dsimp only
    rw [Nat.zero_add]

theorem C6_witness :
    find_audio_files (mainRun envOK (fun _ => wAllGood) ["a.bgw"]).2.2.1
      = find_audio_files ["a.bgw"]
  ∧ mainRun envOK (fun _ => wAllGood)
      (mainRun envOK (fun _ => wAllGood) ["a.bgw"]).2.2.1
      = (0, ⟨0, (find_audio_files ["a.bgw"]).length, 0⟩,
         (mainRun envOK (fun _ => wAllGood) ["a.bgw"]).2.2.1,
         [.checkVgm, .checkFfmpeg]) :=
  C6_theorem envOK (fun _ => wAllGood) (fun _ => wAllGood) ["a.bgw"]
    (by decide) (by decide) (by decide) (by decide) (by decide) (by decide)

/-- C7: the program exits with code 1 exactly when the arguments are
missing, the folder does not exist or is not a directory, or a
required external executable is missing; in every other case —
including an empty discovery — the exit code is 0 (and 0 and 1 are the
only possible exit codes). -/
theorem C7_theorem (e : Env) (w : String → World) (fs : FS) :
    ((mainRun e w fs).1 = 1 ↔
      (e.argc < 2 ∨ e.folderExists = false ∨ e.folderIsDir = false
        ∨ e.vgmFound = false ∨ e.ffmpegFound = false))
  ∧ ((mainRun e w fs).1 = 1 ∨ (mainRun e w fs).1 = 0) := by
  by_cases h1 : e.argc < 2
  · exact ⟨by simp [mainRun, h1], Or.inl (by simp [mainRun, h1])⟩
  · by_cases h2 : e.folderExists = false
    · exact ⟨by simp [mainRun, h1, h2], Or.inl (by simp [mainRun, h1, h2])⟩
    · by_cases h3 : e.folderIsDir = false
      · exact ⟨by simp [mainRun, h1, h2, h3],
          Or.inl (by simp [mainRun, h1, h2, h3])⟩
      · by_cases h4 : e.vgmFound = false
        · exact ⟨by simp [mainRun, h1, h2, h3, h4],
            Or.inl (by simp [mainRun, h1, h2, h3, h4])⟩
        · by_cases h5 : e.ffmpegFound = false
          · exact ⟨by simp [mainRun, h1, h2, h3, h4, h5],
              Or.inl (by simp [mainRun, h1, h2, h3, h4, h5])⟩
          · have hex : e.folderExists = true := by rwa [Bool.not_eq_false] at h2
            have hdr : e.folderIsDir = true := by rwa [Bool.not_eq_false] at h3
            have hvg : e.vgmFound = true := by rwa [Bool.not_eq_false] at h4
            have hfg : e.ffmpegFound = true := by rwa [Bool.not_eq_false] at h5
            have hm := mainRun_checksPassed e w fs h1 hex hdr hvg hfg
            rw [hm]
            constructor
            · constructor
              · intro hone
                exfalso
                split at hone
                · simp at hone
                · unfold withChecks at hone
                  simp at hone
              · intro hor
                exfalso
                rcases hor with h | h | h | h | h
                · exact h1 h
                · exact h2 h
                · exact h3 h
                · exact h4 h
                · exact h5 h
            · right
              split
              · rfl
              · rfl

theorem C7_witness :
    ((mainRun ⟨1, true, true, true, true⟩ (fun _ => wAllGood) []).1 = 1 ↔
      ((1 : Nat) < 2 ∨ (true : Bool) = false ∨ (true : Bool) = false
        ∨ (true : Bool) = false ∨ (true : Bool) = false))
  ∧ ((mainRun ⟨1, true, true, true, true⟩ (fun _ => wAllGood) []).1 = 1
      ∨ (mainRun ⟨1, true, true, true, true⟩ (fun _ => wAllGood) []).1 = 0) :=
  C7_theorem ⟨1, true, true, true, true⟩ (fun _ => wAllGood) []

/-- C8: when the `.ogg` output already exists, `convert_file` returns
`true` with the skip outcome and no launch attempt — the same return
value `true` that every OK conversion yields, so callers cannot
distinguish a skip from a conversion by the return value — and the run
driver's loop counts a `true` return from `convert_file` as converted,
so only the driver's own pre-check produces skip counts. -/
theorem C8_theorem (w : World) (p : String) (fs : FS) (h : oggPath p ∈ fs) :
    convert_file w p fs = ⟨true, .skipped, fs, []⟩
  ∧ (∀ (w' : World) (p' : String) (fs' : FS),
      (convert_file w' p' fs').outcome = .ok → (convert_file w' p' fs').ret = true)
  ∧ (∀ (w2 : String → World) (f : String) (rest : List String) (fs2 : FS)
        (t : Tally),
      oggPath f ∉ fs2 → (convert_file (w2 f) f fs2).ret = true →
      runLoop w2 (f :: rest) fs2 t
        = addCalls (convert_file (w2 f) f fs2).calls
            (runLoop w2 rest (convert_file (w2 f) f fs2).fs
              ⟨t.converted + 1, t.skipped, t.failed⟩)) := by
  refine ⟨convert_file_skip w p fs h, ?_, ?_⟩
  · intro w' p' fs' hout
    rcases convert_file_cases w' p' fs' with
      ⟨_, hc⟩ | hc | hc | hc | hc | hc | hc | ⟨_, hc⟩ <;>
      rw [hc] at hout ⊢ <;> dsimp only at hout ⊢ <;>
      first
        | rfl
        | exact absurd hout (by decide)
  · intro w2 f rest fs2 t hogg2 hret
    rw [runLoop_cons, if_neg hogg2]
    unfold nextTally
    rw [hret]
    simp

theorem C8_witness :
    convert_file wAllGood "a.bgw" ["a.ogg"]
      = ⟨true, Outcome.skipped, ["a.ogg"], []⟩ :=
  (C8_theorem wAllGood "a.bgw" ["a.ogg"] (by decide)).1

/-- C9: after the run driver's loop, converted + skipped + failed
equals the number of processed files plus the starting tally — with the
zero starting tally, exactly the number of discovered files. -/
theorem C9_theorem (w : String → World) (files : List String) (fs : FS) :
    (runLoop w files fs ⟨0, 0, 0⟩).1.converted
        + (runLoop w files fs ⟨0, 0, 0⟩).1.skipped
        + (runLoop w files fs ⟨0, 0, 0⟩).1.failed
      = files.length := by
  rw [runLoop_tally_sum w files fs ⟨0, 0, 0⟩]
  simp

theorem C9_witness :
    (runLoop (fun _ => wAllGood) ["a.bgw"] ["a.bgw"] ⟨0, 0, 0⟩).1.converted
        + (runLoop (fun _ => wAllGood) ["a.bgw"] ["a.bgw"] ⟨0, 0, 0⟩).1.skipped
        + (runLoop (fun _ => wAllGood) ["a.bgw"] ["a.bgw"] ⟨0, 0, 0⟩).1.failed
      = (["a.bgw"] : List String).length :=
  C9_theorem (fun _ => wAllGood) ["a.bgw"] ["a.bgw"]

/-- C10: on every path through `convert_file`, a path different from
the derived `.wav` and `.ogg` paths exists afterwards exactly when it
existed before; in particular the input file itself (whose name matches
one of the audio patterns, so differs from both derived paths) is never
created or deleted. -/
theorem C10_theorem (w : World) (p : String) (fs : FS) :
    (∀ q : String, q ≠ wavPath p → q ≠ oggPath p →
      (q ∈ (convert_file w p fs).fs ↔ q ∈ fs))
  ∧ (isAudioName p = true → (p ∈ (convert_file w p fs).fs ↔ p ∈ fs)) := by
  have hframe : ∀ q : String, q ≠ wavPath p → q ≠ oggPath p →
      (q ∈ (convert_file w p fs).fs ↔ q ∈ fs) := by
    intro q hw ho
    rcases convert_file_cases w p fs with
      ⟨_, hc⟩ | hc | hc | hc | hc | hc | hc | ⟨_, hc⟩ <;> rw [hc] <;> dsimp only
    · rw [mem_rmIfExists]
      constructor
      · intro hx
        exact (mem_afterDec w p q fs hw).1 hx.1
      · intro hx
        exact ⟨(mem_afterDec w p q fs hw).2 hx, fun _ => hw⟩
    · exact mem_afterDec w p q fs hw
    · exact mem_afterDec w p q fs hw
    · rw [mem_rmIfExists]
      constructor
      · intro hx
        exact (mem_afterDec w p q fs hw).1 ((mem_afterEnc w p q _ ho).1 hx.1)
      · intro hx
        exact ⟨(mem_afterEnc w p q _ ho).2 ((mem_afterDec w p q fs hw).2 hx),
          fun _ => hw⟩
    · rw [mem_rmIfExists]
      constructor
      · intro hx
        exact (mem_afterDec w p q fs hw).1 ((mem_afterEnc w p q _ ho).1 hx.1)
      · intro hx
        exact ⟨(mem_afterEnc w p q _ ho).2 ((mem_afterDec w p q fs hw).2 hx),
          fun _ => hw⟩
    · rw [mem_fsErase]
      constructor
      · intro hx
        exact (mem_afterDec w p q fs hw).1 ((mem_afterEnc w p q _ ho).1 hx.1)
      · intro hx
        exact ⟨(mem_afterEnc w p q _ ho).2 ((mem_afterDec w p q fs hw).2 hx), hw⟩
  exact ⟨hframe,
    fun ha => hframe p (isAudioName_ne_wavPath p ha) (isAudioName_ne_oggPath p ha)⟩

theorem C10_witness :
    "keep.txt" ∈ (convert_file wAllGood "a.bgw" ["keep.txt", "a.bgw"]).fs
      ↔ "keep.txt" ∈ (["keep.txt", "a.bgw"] : FS) :=
  (C10_theorem wAllGood "a.bgw" ["keep.txt", "a.bgw"]).1 "keep.txt"
    (by decide) (by decide)

end FFXI
